import Mathlib

/-!
Verification of libmateui behaviors against its C sources.

C strings are modelled as `List Char` (no interior NUL assumed). GLib's
`GHashTable` with string keys is modelled as an association list whose keys
are unique for every table reachable through the API; `g_hash_table_insert`
replaces the (unique) entry with the given key or appends a fresh one,
`g_hash_table_remove` drops the entries with that key, `g_hash_table_lookup`
returns the first value stored under the key. Iteration order of the table is
fixed to insertion order (a refinement of GLib's unspecified order).
-/

set_option autoImplicit false

abbrev Str := List Char

/-- g_ascii_isspace: space, tab, newline, vertical tab, form feed, carriage return. -/
def isAsciiSpace (c : Char) : Bool :=
  c = ' ' || c = '\t' || c = '\n' || c = '\x0b' || c = '\x0c' || c = '\r'

/-- g_strchug: removes leading whitespace. -/
def g_strchug (s : Str) : Str := s.dropWhile isAsciiSpace

/-- g_strchomp: removes trailing whitespace. -/
def g_strchomp (s : Str) : Str := (s.reverse.dropWhile isAsciiSpace).reverse

/-- g_strstrip(s) = g_strchomp(g_strchug(s)). -/
def g_strstrip (s : Str) : Str := g_strchomp (g_strchug s)

/-- Splits at every occurrence of `sep`; a nonempty-input core of g_strsplit. -/
def splitOnChar (sep : Char) : Str → List Str
  | [] => [[]]
  | c :: cs =>
    if c = sep then [] :: splitOnChar sep cs
    else
      match splitOnChar sep cs with
      | [] => [[c]]
      | l :: ls => (c :: l) :: ls

/-- g_strsplit(contents, sep, -1): the empty string yields no tokens at all. -/
def gStrsplitAll (sep : Char) (s : Str) : List Str :=
  if s = [] then [] else splitOnChar sep s

/-- g_strsplit(line, sep, 2) on a nonempty line: `none` when `sep` does not occur
(one token, parts[1] == NULL), otherwise the parts before and after the first `sep`. -/
def splitFirstAt (sep : Char) : Str → Option (Str × Str)
  | [] => none
  | c :: cs =>
    if c = sep then some ([], cs)
    else
      match splitFirstAt sep cs with
      | none => none
      | some (a, b) => some (c :: a, b)

/-! ## mate-ui-accel.c: the accelerator map -/

abbrev AccelMap := List (Str × Str)

/-- mate_ui_accel_map_new: a fresh empty table. -/
def mate_ui_accel_map_new : AccelMap := []

/-- mate_ui_accel_map_add: g_hash_table_insert(map->accels, strdup(action), strdup(accel)),
replacing the entry stored under `action_name` or appending a fresh one. -/
def mate_ui_accel_map_add : AccelMap → Str → Str → AccelMap
  | [], action_name, accel => [(action_name, accel)]
  | (k, v) :: rest, action_name, accel =>
    if k = action_name then (action_name, accel) :: rest
    else (k, v) :: mate_ui_accel_map_add rest action_name accel

/-- mate_ui_accel_map_add_entries: adds each (action_name, accel) entry in turn. -/
def mate_ui_accel_map_add_entries (map : AccelMap) (entries : List (Str × Str)) : AccelMap :=
  entries.foldl (fun m e => mate_ui_accel_map_add m e.1 e.2) map

/-- mate_ui_accel_map_remove: g_hash_table_remove(map->accels, action_name). -/
def mate_ui_accel_map_remove (map : AccelMap) (action_name : Str) : AccelMap :=
  map.filter (fun e => !(e.1 = action_name : Bool))

/-- mate_ui_accel_map_get: g_hash_table_lookup(map->accels, action_name). -/
def mate_ui_accel_map_get : AccelMap → Str → Option Str
  | [], _ => none
  | (k, v) :: rest, action_name =>
    if k = action_name then some v else mate_ui_accel_map_get rest action_name

/-- Body of the mate_ui_accel_map_load loop for one line of the file: strip the
line, skip empty and '#' lines, split at the first '=', strip both parts, and
yield the pair to add when both are nonempty. -/
def parseAccelLine (line : Str) : Option (Str × Str) :=
  match g_strstrip line with
  | [] => none
  | c :: rest =>
    if c = '#' then none
    else
      match splitFirstAt '=' (c :: rest) with
      | none => none
      | some (p0, p1) =>
        let action := g_strstrip p0
        let accel := g_strstrip p1
        if action ≠ [] ∧ accel ≠ [] then some (action, accel) else none

/-- The loop of mate_ui_accel_map_load over the lines of the file contents. -/
def mate_ui_accel_map_load_contents (map : AccelMap) (contents : Str) : AccelMap :=
  (gStrsplitAll '\n' contents).foldl
    (fun m line =>
      match parseAccelLine line with
      | some p => mate_ui_accel_map_add m p.1 p.2
      | none => m)
    map

/-- mate_ui_accel_map_load: the file is `none` when g_file_get_contents fails
(the function returns FALSE before touching the map), otherwise the contents
are parsed line by line and TRUE is returned. -/
def mate_ui_accel_map_load (map : AccelMap) (file : Option Str) : Bool × AccelMap :=
  match file with
  | none => (false, map)
  | some contents => (true, mate_ui_accel_map_load_contents map contents)

/-- The fixed header that mate_ui_accel_map_save writes first. -/
def saveHeader : Str :=
  ("# MATE UI Accelerator Map\n# Format: action_name=accelerator\n\n").toList

/-- mate_ui_accel_map_save: the file contents produced — the header followed by
one `action=accel\n` line per entry, in table iteration order. -/
def mate_ui_accel_map_save (map : AccelMap) : Str :=
  saveHeader ++ (map.map (fun e => e.1 ++ '=' :: e.2 ++ ['\n'])).flatten

/-- The (action, accel) pairs that loading the given contents adds, in order. -/
def parsedAccelPairs (contents : Str) : List (Str × Str) :=
  (gStrsplitAll '\n' contents).filterMap parseAccelLine

/-- Operations of the accelerator-map CRUD interface, used to speak about a map
built by an arbitrary sequence of calls. -/
inductive AccelOp where
  | add (action_name accel : Str)
  | remove (action_name : Str)

def applyAccelOp (map : AccelMap) : AccelOp → AccelMap
  | .add a s => mate_ui_accel_map_add map a s
  | .remove a => mate_ui_accel_map_remove map a

def applyAccelOps (map : AccelMap) (ops : List AccelOp) : AccelMap :=
  ops.foldl applyAccelOp map

/-- Whether an operation adds an entry under the given action name. -/
def opAddsName (a : Str) : AccelOp → Bool
  | .add a' _ => a' = a
  | .remove _ => false

/-- The keys of a map. -/
def accelKeys (map : AccelMap) : List Str := map.map Prod.fst

/-- A table reachable through the API: keys are unique. -/
def accelMapWf (map : AccelMap) : Prop := (accelKeys map).Nodup

/-- Modelled from the spec claim wording, for comparison with the source-derived
loader: split the contents into lines on newline; for each line, after stripping
leading/trailing whitespace, skip it if it is empty or begins with '#'; otherwise
split at the first '=' into an action part and an accelerator part, strip both,
and add the pair iff an '=' was present and both stripped parts are nonempty. -/
def accel_map_load_spec (map : AccelMap) (contents : Str) : AccelMap :=
  (splitOnChar '\n' contents).foldl
    (fun m line =>
      if g_strstrip line = [] then m
      else if (g_strstrip line).head? = some '#' then m
      else
        match splitFirstAt '=' (g_strstrip line) with
        | none => m
        | some (p0, p1) =>
          if g_strstrip p0 ≠ [] ∧ g_strstrip p1 ≠ [] then
            mate_ui_accel_map_add m (g_strstrip p0) (g_strstrip p1)
          else m)
    map

/-! ## mate-ui-window.c: window parts and settings binding

Widgets are opaque handles, modelled as `Nat`; a `GSettings` store maps each
key to its current integer value (every key of a GSettings schema has a
value). -/

abbrev GSettingsStore := Str → Int

def g_settings_set_int (s : GSettingsStore) (key : Str) (v : Int) : GSettingsStore :=
  fun k => if k = key then v else s k

def g_settings_get_int (s : GSettingsStore) (key : Str) : Int := s key

/-- The MateUiWindowPrivate fields the claims are about (main_box and flags
omitted; handler ids kept as connected/not). -/
structure MateUiWindowPrivate where
  menubar : Option Nat
  toolbar : Option Nat
  content : Option Nat
  statusbar : Option Nat
  settings : Option GSettingsStore
  width_key : Option Str
  height_key : Option Str
  maximized_key : Option Str
  configure_handler : Bool
  state_handler : Bool

/-- mate_ui_window_init: all parts NULL, no settings binding. -/
def mate_ui_window_init : MateUiWindowPrivate :=
  { menubar := none, toolbar := none, content := none, statusbar := none,
    settings := none, width_key := none, height_key := none, maximized_key := none,
    configure_handler := false, state_handler := false }

/-- mate_ui_window_set_menubar: early return when unchanged, else update the
cached reference (rebuild_layout repacks main_box and touches no priv field). -/
def mate_ui_window_set_menubar (w : MateUiWindowPrivate) (menubar : Option Nat) :
    MateUiWindowPrivate :=
  if w.menubar = menubar then w else { w with menubar := menubar }

def mate_ui_window_get_menubar (w : MateUiWindowPrivate) : Option Nat := w.menubar

def mate_ui_window_set_toolbar (w : MateUiWindowPrivate) (toolbar : Option Nat) :
    MateUiWindowPrivate :=
  if w.toolbar = toolbar then w else { w with toolbar := toolbar }

def mate_ui_window_get_toolbar (w : MateUiWindowPrivate) : Option Nat := w.toolbar

/-- mate_ui_window_set_content requires a widget (g_return_if_fail(GTK_IS_WIDGET)),
so its argument is not nullable. -/
def mate_ui_window_set_content (w : MateUiWindowPrivate) (content : Nat) :
    MateUiWindowPrivate :=
  if w.content = some content then w else { w with content := some content }

def mate_ui_window_get_content (w : MateUiWindowPrivate) : Option Nat := w.content

def mate_ui_window_set_statusbar (w : MateUiWindowPrivate) (statusbar : Option Nat) :
    MateUiWindowPrivate :=
  if w.statusbar = statusbar then w else { w with statusbar := statusbar }

def mate_ui_window_get_statusbar (w : MateUiWindowPrivate) : Option Nat := w.statusbar

/-- mate_ui_window_bind_settings: clears any previous binding and stores the new
settings object, keys and signal handlers. -/
def mate_ui_window_bind_settings (w : MateUiWindowPrivate) (settings : GSettingsStore)
    (width_key height_key maximized_key : Option Str) : MateUiWindowPrivate :=
  { w with settings := some settings, width_key := width_key,
           height_key := height_key, maximized_key := maximized_key,
           configure_handler := true, state_handler := true }

/-- mate_ui_window_configure_event: `gdk_maximized` is `none` when the window has
no GdkWindow, otherwise whether GDK_WINDOW_STATE_MAXIMIZED is set; `ew`/`eh` are
the configure event's width and height. The handler returns FALSE either way; the
model returns the updated private state. -/
def mate_ui_window_configure_event (w : MateUiWindowPrivate) (gdk_maximized : Option Bool)
    (ew eh : Int) : MateUiWindowPrivate :=
  match w.settings with
  | none => w
  | some s =>
    if gdk_maximized = some true then w
    else
      let s1 := match w.width_key with
        | some k => g_settings_set_int s k ew
        | none => s
      let s2 := match w.height_key with
        | some k => g_settings_set_int s1 k eh
        | none => s1
      { w with settings := some s2 }

/-- mate_ui_window_set_default_size_from_settings: returns the (width, height)
pair passed on to gtk_window_set_default_size. -/
def mate_ui_window_set_default_size_from_settings (settings : GSettingsStore)
    (width_key height_key : Str) (default_width default_height : Int) : Int × Int :=
  let width := g_settings_get_int settings width_key
  let height := g_settings_get_int settings height_key
  let width := if width ≤ 0 then default_width else width
  let height := if height ≤ 0 then default_height else height
  (width, height)

/-! ## mate-ui-menu.c: menu model construction -/

/-- The in-place loop of mate_ui_menu_model_new_from_entries that copies every
character except '_' (p scans, q writes). -/
def stripMnemonicUnderscores : Str → Str
  | [] => []
  | c :: cs =>
    if c = '_' then stripMnemonicUnderscores cs
    else c :: stripMnemonicUnderscores cs

structure MateUiMenuEntry where
  label : Option Str
  action_name : Option Str
  icon_name : Option Str
  accel : Option Str

structure MateUiSubmenu where
  label : Str
  entries : List MateUiMenuEntry

/-- An item of the produced GMenu: a section break (the stand-in for a
separator) or a menu item with its label and attributes. -/
inductive MenuModelItem where
  | sectionBreak
  | item (label : Str) (action_name : Option Str) (icon_name : Option Str)
      (accel : Option Str)

/-- The inner loop of mate_ui_menu_model_new_from_entries for one entry: a
separator entry (label and action both NULL) becomes a section break, any other
entry becomes an item whose label is the entry label with the mnemonic
underscores stripped. (A NULL label on a non-separator entry is a caller error
in the C code; it is rendered as the empty label here.) -/
def buildMenuItem (e : MateUiMenuEntry) : MenuModelItem :=
  if e.label = none ∧ e.action_name = none then .sectionBreak
  else
    .item (stripMnemonicUnderscores (e.label.getD [])) e.action_name e.icon_name e.accel

/-- mate_ui_menu_model_new_from_entries: the produced model as the list of
(submenu label, submenu items) in order. -/
def mate_ui_menu_model_new_from_entries (submenus : List MateUiSubmenu) :
    List (Str × List MenuModelItem) :=
  submenus.map (fun sm => (stripMnemonicUnderscores sm.label, sm.entries.map buildMenuItem))

/-! ## mate-ui-session.c: session inhibitors

Applications and windows are opaque handles (`Nat`). The outcomes of the two
external acquisition mechanisms are an explicit environment: the cookie that
gtk_application_inhibit would return, whether the session-manager D-Bus proxy
is available, and the cookie the Inhibit D-Bus call would return (`none` when
the call errors out). -/

structure SessionWorld where
  gtk_inhibit_cookie : Nat
  proxy_available : Bool
  dbus_inhibit_result : Option Nat

/-- The MateUiSessionInhibitor struct (g_new0 zero-fills it). -/
structure MateUiSessionInhibitor where
  app : Option Nat
  cookie : Nat
  flags : Nat
  is_dbus : Bool
  dbus_cookie : Nat

/-- The D-Bus fallback of mate_ui_session_inhibit: the session-manager Inhibit
call, made only when the proxy is available. -/
def sessionDbusInhibit (w : SessionWorld) (base : MateUiSessionInhibitor) :
    Option MateUiSessionInhibitor :=
  if w.proxy_available then
    match w.dbus_inhibit_result with
    | some c => some { base with dbus_cookie := c, is_dbus := true }
    | none => none
  else none

/-- mate_ui_session_inhibit: try gtk_application_inhibit first (only with an
application), fall back to the D-Bus session manager, return NULL when both
fail. The reason is non-NULL by typing (a NULL reason trips the
g_return_val_if_fail guard). -/
def mate_ui_session_inhibit (w : SessionWorld) (app : Option Nat) (flags : Nat) :
    Option MateUiSessionInhibitor :=
  let inh : MateUiSessionInhibitor :=
    { app := none, cookie := 0, flags := flags, is_dbus := false, dbus_cookie := 0 }
  match app with
  | some a =>
    let inh1 := { inh with cookie := w.gtk_inhibit_cookie }
    if inh1.cookie ≠ 0 then some { inh1 with app := some a, is_dbus := false }
    else sessionDbusInhibit w inh1
  | none => sessionDbusInhibit w inh

/-- The release action mate_ui_session_uninhibit performs. -/
inductive UninhibitAction where
  | noop
  | gtk_uninhibit (app : Nat) (cookie : Nat)
  | dbus_uninhibit (cookie : Nat)
  | dbus_unavailable
  | free_only

/-- mate_ui_session_uninhibit: NULL is a no-op; a non-D-Bus inhibitor with an
application goes through gtk_application_uninhibit with the stored cookie; a
D-Bus inhibitor goes through the session-manager Uninhibit call with the stored
D-Bus cookie (when the proxy is available); anything else is only freed. -/
def mate_ui_session_uninhibit (w : SessionWorld) (inhibitor : Option MateUiSessionInhibitor) :
    UninhibitAction :=
  match inhibitor with
  | none => .noop
  | some inh =>
    if inh.is_dbus = false ∧ inh.app.isSome then
      .gtk_uninhibit (inh.app.getD 0) inh.cookie
    else if inh.is_dbus then
      if w.proxy_available then .dbus_uninhibit inh.dbus_cookie
      else .dbus_unavailable
    else .free_only

/-! ## Definitions used to state the save/load round trip -/

instance (m : AccelMap) : Decidable (accelMapWf m) :=
  List.nodupDecidable (accelKeys m)

/-- The string has no leading whitespace. -/
def noLeadWS (s : Str) : Bool :=
  match s.head? with
  | some c => !isAsciiSpace c
  | none => true

/-- The string has no trailing whitespace. -/
def noTrailWS (s : Str) : Bool :=
  match s.getLast? with
  | some c => !isAsciiSpace c
  | none => true

/-- The round-trip precondition on one map entry, as the claim states it: action
name and accelerator nonempty, without newline, without leading or trailing
whitespace; the action name without '=' and not beginning with '#'. -/
def saveableEntry (p : Str × Str) : Prop :=
  p.1 ≠ [] ∧ p.2 ≠ [] ∧ '\n' ∉ p.1 ∧ '\n' ∉ p.2 ∧
  noLeadWS p.1 = true ∧ noTrailWS p.1 = true ∧
  noLeadWS p.2 = true ∧ noTrailWS p.2 = true ∧
  '=' ∉ p.1 ∧ p.1.head? ≠ some '#'

instance (p : Str × Str) : Decidable (saveableEntry p) := by
  unfold saveableEntry
  infer_instance

/-- First comment line of the save header. -/
def headerLine1 : Str := ("# MATE UI Accelerator Map").toList

/-- Second comment line of the save header. -/
def headerLine2 : Str := ("# Format: action_name=accelerator").toList

/-! ## Lemmas about the accelerator map -/

theorem accel_get_add (m : AccelMap) (a s b : Str) :
    mate_ui_accel_map_get (mate_ui_accel_map_add m a s) b =
      if a = b then some s else mate_ui_accel_map_get m b := by
  induction m with
  | nil => simp [mate_ui_accel_map_add, mate_ui_accel_map_get]
  | cons e rest ih =>
    obtain ⟨k, v⟩ := e
    simp only [mate_ui_accel_map_add]
    split_ifs with h1 <;> simp only [mate_ui_accel_map_get, ih] <;>
      split_ifs <;> simp_all

theorem accel_get_remove (m : AccelMap) (a b : Str) :
    mate_ui_accel_map_get (mate_ui_accel_map_remove m a) b =
      if a = b then none else mate_ui_accel_map_get m b := by
  induction m with
  | nil => simp [mate_ui_accel_map_remove, mate_ui_accel_map_get]
  | cons e rest ih =>
    obtain ⟨k, v⟩ := e
    simp only [mate_ui_accel_map_remove, List.filter_cons] at *
    split_ifs at * <;> simp_all [mate_ui_accel_map_get]

theorem accel_get_none_of_ops (ops : List AccelOp) (m : AccelMap) (a : Str)
    (h : ∀ op ∈ ops, opAddsName a op = false)
    (hm : mate_ui_accel_map_get m a = none) :
    mate_ui_accel_map_get (applyAccelOps m ops) a = none := by
  induction ops generalizing m with
  | nil => exact hm
  | cons op rest ih =>
    have hop := h op (by simp)
    have hrest : ∀ op ∈ rest, opAddsName a op = false := fun o ho => h o (by simp [ho])
    show mate_ui_accel_map_get (applyAccelOps (applyAccelOp m op) rest) a = none
    refine ih _ hrest ?_
    cases op with
    | add a' s =>
      simp only [opAddsName, decide_eq_false_iff_not] at hop
      simp [applyAccelOp, accel_get_add, hop, hm]
    | remove a' =>
      simp only [applyAccelOp, accel_get_remove]
      split_ifs <;> simp [hm]

theorem accelKeys_add (m : AccelMap) (a s : Str) :
    accelKeys (mate_ui_accel_map_add m a s) =
      if a ∈ accelKeys m then accelKeys m else accelKeys m ++ [a] := by
  induction m with
  | nil => simp [mate_ui_accel_map_add, accelKeys]
  | cons e rest ih =>
    obtain ⟨k, v⟩ := e
    simp only [accelKeys, List.map_cons] at ih ⊢
    by_cases hk : k = a
    · subst hk
      simp [mate_ui_accel_map_add]
    · simp only [mate_ui_accel_map_add, if_neg hk, List.map_cons, ih, List.mem_cons]
      by_cases hmem : a ∈ List.map Prod.fst rest
      · simp [hmem]
      · simp [hmem, Ne.symm hk]

theorem accelMapWf_add (m : AccelMap) (a s : Str) (h : accelMapWf m) :
    accelMapWf (mate_ui_accel_map_add m a s) := by
  unfold accelMapWf at *
  rw [accelKeys_add]
  split_ifs with hmem
  · exact h
  · simp [List.nodup_append, h, hmem]

theorem accelMapWf_remove (m : AccelMap) (a : Str) (h : accelMapWf m) :
    accelMapWf (mate_ui_accel_map_remove m a) := by
  unfold accelMapWf accelKeys at *
  exact h.sublist ((List.filter_sublist m).map Prod.fst)

theorem accelMapWf_add_entries (m : AccelMap) (es : List (Str × Str)) (h : accelMapWf m) :
    accelMapWf (mate_ui_accel_map_add_entries m es) := by
  induction es generalizing m with
  | nil => exact h
  | cons e rest ih => exact ih _ (accelMapWf_add m e.1 e.2 h)

theorem load_contents_eq_fold_pairs (m : AccelMap) (c : Str) :
    mate_ui_accel_map_load_contents m c =
      (parsedAccelPairs c).foldl (fun acc p => mate_ui_accel_map_add acc p.1 p.2) m := by
  unfold mate_ui_accel_map_load_contents parsedAccelPairs
  generalize gStrsplitAll '\n' c = lines
  induction lines generalizing m with
  | nil => rfl
  | cons l rest ih =>
    simp only [List.foldl_cons, List.filterMap_cons]
    cases h : parseAccelLine l <;> simp [h, ih]

theorem accelMapWf_load (m : AccelMap) (f : Option Str) (h : accelMapWf m) :
    accelMapWf (mate_ui_accel_map_load m f).2 := by
  cases f with
  | none => exact h
  | some c =>
    show accelMapWf (mate_ui_accel_map_load_contents m c)
    rw [load_contents_eq_fold_pairs]
    generalize parsedAccelPairs c = ps
    induction ps generalizing m with
    | nil => exact h
    | cons p rest ih => exact ih _ (accelMapWf_add m p.1 p.2 h)

theorem accel_add_length_of_mem (m : AccelMap) (a s : Str) (h : a ∈ accelKeys m) :
    (mate_ui_accel_map_add m a s).length = m.length := by
  induction m with
  | nil => simp [accelKeys] at h
  | cons e rest ih =>
    obtain ⟨k, v⟩ := e
    simp only [mate_ui_accel_map_add]
    split_ifs with h1
    · simp
    · simp only [accelKeys, List.map_cons, List.mem_cons] at h
      rcases h with h | h
      · exact (h1 h.symm).elim
      · simp [ih h]

/-- C1: the accelerator map is a string-keyed action-name-to-accelerator table
with CRUD semantics: get after add returns the accelerator just added, get
after remove returns NULL, and get returns NULL on a fresh map and for any
action name never added across an arbitrary sequence of add/remove calls. -/
theorem accel_map_crud_semantics (m : AccelMap) (a s : Str) :
    mate_ui_accel_map_get (mate_ui_accel_map_add m a s) a = some s ∧
    mate_ui_accel_map_get (mate_ui_accel_map_remove m a) a = none ∧
    mate_ui_accel_map_get mate_ui_accel_map_new a = none ∧
    (∀ ops : List AccelOp, (∀ op ∈ ops, opAddsName a op = false) →
      mate_ui_accel_map_get (applyAccelOps mate_ui_accel_map_new ops) a = none) := by
  refine ⟨?_, ?_, rfl, fun ops h => accel_get_none_of_ops ops _ a h rfl⟩
  · simp [accel_get_add]
  · simp [accel_get_remove]

theorem accel_map_crud_semantics_witness :
    mate_ui_accel_map_get
        (applyAccelOps mate_ui_accel_map_new
          [.add ['b'] ['x'], .remove ['b'], .add ['c'] ['y']]) ['a'] = none :=
  (accel_map_crud_semantics [] ['a'] ['x']).2.2.2
    [.add ['b'] ['x'], .remove ['b'], .add ['c'] ['y']] (by decide)

/-- C4: every operation on an accelerator map (new, add, add_entries, remove,
load) preserves uniqueness of the action-name keys, and adding under an
already-present action name replaces the stored accelerator in place (same
number of entries, new value retrieved) rather than creating a second entry. -/
theorem accel_map_unique_keys :
    accelMapWf mate_ui_accel_map_new ∧
    (∀ m a s, accelMapWf m → accelMapWf (mate_ui_accel_map_add m a s)) ∧
    (∀ m es, accelMapWf m → accelMapWf (mate_ui_accel_map_add_entries m es)) ∧
    (∀ m a, accelMapWf m → accelMapWf (mate_ui_accel_map_remove m a)) ∧
    (∀ m f, accelMapWf m → accelMapWf (mate_ui_accel_map_load m f).2) ∧
    (∀ m a s, a ∈ accelKeys m →
      (mate_ui_accel_map_add m a s).length = m.length ∧
      mate_ui_accel_map_get (mate_ui_accel_map_add m a s) a = some s) :=
  ⟨List.nodup_nil, accelMapWf_add, accelMapWf_add_entries, accelMapWf_remove,
    accelMapWf_load,
    fun m a s h => ⟨accel_add_length_of_mem m a s h, by simp [accel_get_add]⟩⟩

theorem accel_map_unique_keys_witness :
    accelMapWf ([(['a'], ['x']), (['b'], ['y'])] : AccelMap) ∧
    accelMapWf (mate_ui_accel_map_add_entries [(['a'], ['x']), (['b'], ['y'])]
      [(['a'], ['z']), (['c'], ['w'])]) ∧
    (['a'] ∈ accelKeys [(['a'], ['x']), (['b'], ['y'])] ∧
      (mate_ui_accel_map_add [(['a'], ['x']), (['b'], ['y'])] ['a'] ['z']).length =
        (([(['a'], ['x']), (['b'], ['y'])] : AccelMap)).length ∧
      mate_ui_accel_map_get (mate_ui_accel_map_add [(['a'], ['x']), (['b'], ['y'])] ['a'] ['z'])
        ['a'] = some ['z']) :=
  ⟨by decide,
   accel_map_unique_keys.2.2.1 [(['a'], ['x']), (['b'], ['y'])]
     [(['a'], ['z']), (['c'], ['w'])] (by decide),
   by decide,
   (accel_map_unique_keys.2.2.2.2.2 [(['a'], ['x']), (['b'], ['y'])] ['a'] ['z'] (by decide)).1,
   (accel_map_unique_keys.2.2.2.2.2 [(['a'], ['x']), (['b'], ['y'])] ['a'] ['z'] (by decide)).2⟩

theorem accel_get_fold_add_of_notMem (ps : List (Str × Str)) (m : AccelMap) (a : Str)
    (h : a ∉ ps.map Prod.fst) :
    mate_ui_accel_map_get (ps.foldl (fun acc p => mate_ui_accel_map_add acc p.1 p.2) m) a =
      mate_ui_accel_map_get m a := by
  induction ps generalizing m with
  | nil => rfl
  | cons p rest ih =>
    simp only [List.map_cons, List.mem_cons, not_or] at h
    simp only [List.foldl_cons]
    rw [ih _ h.2, accel_get_add, if_neg (Ne.symm h.1)]

theorem accel_get_fold_add_ne_none (ps : List (Str × Str)) (m : AccelMap) (a : Str)
    (h : mate_ui_accel_map_get m a ≠ none) :
    mate_ui_accel_map_get (ps.foldl (fun acc p => mate_ui_accel_map_add acc p.1 p.2) m) a ≠
      none := by
  induction ps generalizing m with
  | nil => exact h
  | cons p rest ih =>
    simp only [List.foldl_cons]
    refine ih _ ?_
    rw [accel_get_add]
    split_ifs <;> simp [h]

/-- C8: mate_ui_accel_map_load never removes entries. When the file cannot be
read it returns FALSE with the map untouched; on success the parsed pairs are
added on top of the existing entries, so any action name not occurring in the
file keeps its old accelerator and no present entry can disappear. -/
theorem accel_map_load_never_removes (m : AccelMap) :
    mate_ui_accel_map_load m none = (false, m) ∧
    (∀ c a, a ∉ (parsedAccelPairs c).map Prod.fst →
      mate_ui_accel_map_get (mate_ui_accel_map_load m (some c)).2 a =
        mate_ui_accel_map_get m a) ∧
    (∀ c a, mate_ui_accel_map_get m a ≠ none →
      mate_ui_accel_map_get (mate_ui_accel_map_load m (some c)).2 a ≠ none) := by
  refine ⟨rfl, fun c a h => ?_, fun c a h => ?_⟩
  · show mate_ui_accel_map_get (mate_ui_accel_map_load_contents m c) a = _
    rw [load_contents_eq_fold_pairs]
    exact accel_get_fold_add_of_notMem _ m a h
  · show mate_ui_accel_map_get (mate_ui_accel_map_load_contents m c) a ≠ none
    rw [load_contents_eq_fold_pairs]
    exact accel_get_fold_add_ne_none _ m a h

theorem accel_map_load_never_removes_witness :
    (['a'] ∉ (parsedAccelPairs (("b=y\n").toList)).map Prod.fst ∧
      mate_ui_accel_map_get
          (mate_ui_accel_map_load [(['a'], ['x'])] (some (("b=y\n").toList))).2 ['a'] =
        mate_ui_accel_map_get [(['a'], ['x'])] ['a']) ∧
    (mate_ui_accel_map_get ([(['a'], ['x'])] : AccelMap) ['a'] ≠ none ∧
      mate_ui_accel_map_get
          (mate_ui_accel_map_load [(['a'], ['x'])] (some (("b=y\n").toList))).2 ['a'] ≠ none) :=
  ⟨⟨by decide,
    (accel_map_load_never_removes [(['a'], ['x'])]).2.1 (("b=y\n").toList) ['a'] (by decide)⟩,
   ⟨by decide,
    (accel_map_load_never_removes [(['a'], ['x'])]).2.2 (("b=y\n").toList) ['a'] (by decide)⟩⟩

theorem accel_parse_step_eq (m : AccelMap) (line : Str) :
    (match parseAccelLine line with
      | some p => mate_ui_accel_map_add m p.1 p.2
      | none => m) =
    (if g_strstrip line = [] then m
     else if (g_strstrip line).head? = some '#' then m
     else
       match splitFirstAt '=' (g_strstrip line) with
       | none => m
       | some (p0, p1) =>
         if g_strstrip p0 ≠ [] ∧ g_strstrip p1 ≠ [] then
           mate_ui_accel_map_add m (g_strstrip p0) (g_strstrip p1)
         else m) := by
  unfold parseAccelLine
  cases hs : g_strstrip line with
  | nil => simp
  | cons c rest =>
    by_cases hc : c = '#'
    · subst hc
      simp
    · simp only [if_neg hc, List.head?_cons, List.cons_ne_nil, if_neg,
        Option.some.injEq, reduceCtorEq, if_false]
      cases hsp : splitFirstAt '=' (c :: rest) with
      | none => simp
      | some p =>
        obtain ⟨p0, p1⟩ := p
        by_cases hne : g_strstrip p0 ≠ [] ∧ g_strstrip p1 ≠ []
        · simp [hne]
        · simp [hne]

/-- C3: mate_ui_accel_map_load on a readable file parses the contents exactly as
the spec sentence describes — lines split on newline, each stripped, empty and
'#'-prefixed lines skipped, the rest split at the first '=' with both parts
stripped and added iff an '=' was present and both parts are nonempty — and it
returns TRUE. -/
theorem accel_map_load_parses_as_spec (m : AccelMap) (c : Str) :
    mate_ui_accel_map_load m (some c) = (true, accel_map_load_spec m c) := by
  show (true, mate_ui_accel_map_load_contents m c) = _
  unfold mate_ui_accel_map_load_contents accel_map_load_spec gStrsplitAll
  by_cases hc : c = []
  · subst hc
    rw [if_pos rfl]
    show (true, m) = (true, List.foldl _ m (splitOnChar '\n' []))
    rfl
  · rw [if_neg hc]
    congr 1
    generalize splitOnChar '\n' c = lines
    induction lines generalizing m with
    | nil => rfl
    | cons l rest ih =>
      simp only [List.foldl_cons]
      rw [accel_parse_step_eq m l]
      exact ih _

/-! ## Lemmas and claims about the window module -/

/-- C6: each part setter changes only its own cached widget reference — its
getter afterwards returns the widget just set (NULL removing it where the
setter is nullable), the other three getters are unchanged — and on a freshly
initialized window all four getters return NULL. -/
theorem window_part_setters_frame :
    (mate_ui_window_get_menubar mate_ui_window_init = none ∧
     mate_ui_window_get_toolbar mate_ui_window_init = none ∧
     mate_ui_window_get_content mate_ui_window_init = none ∧
     mate_ui_window_get_statusbar mate_ui_window_init = none) ∧
    (∀ w m, mate_ui_window_get_menubar (mate_ui_window_set_menubar w m) = m ∧
      mate_ui_window_get_toolbar (mate_ui_window_set_menubar w m) =
        mate_ui_window_get_toolbar w ∧
      mate_ui_window_get_content (mate_ui_window_set_menubar w m) =
        mate_ui_window_get_content w ∧
      mate_ui_window_get_statusbar (mate_ui_window_set_menubar w m) =
        mate_ui_window_get_statusbar w) ∧
    (∀ w t, mate_ui_window_get_toolbar (mate_ui_window_set_toolbar w t) = t ∧
      mate_ui_window_get_menubar (mate_ui_window_set_toolbar w t) =
        mate_ui_window_get_menubar w ∧
      mate_ui_window_get_content (mate_ui_window_set_toolbar w t) =
        mate_ui_window_get_content w ∧
      mate_ui_window_get_statusbar (mate_ui_window_set_toolbar w t) =
        mate_ui_window_get_statusbar w) ∧
    (∀ w c, mate_ui_window_get_content (mate_ui_window_set_content w c) = some c ∧
      mate_ui_window_get_menubar (mate_ui_window_set_content w c) =
        mate_ui_window_get_menubar w ∧
      mate_ui_window_get_toolbar (mate_ui_window_set_content w c) =
        mate_ui_window_get_toolbar w ∧
      mate_ui_window_get_statusbar (mate_ui_window_set_content w c) =
        mate_ui_window_get_statusbar w) ∧
    (∀ w sb, mate_ui_window_get_statusbar (mate_ui_window_set_statusbar w sb) = sb ∧
      mate_ui_window_get_menubar (mate_ui_window_set_statusbar w sb) =
        mate_ui_window_get_menubar w ∧
      mate_ui_window_get_toolbar (mate_ui_window_set_statusbar w sb) =
        mate_ui_window_get_toolbar w ∧
      mate_ui_window_get_content (mate_ui_window_set_statusbar w sb) =
        mate_ui_window_get_content w) := by
  refine ⟨⟨rfl, rfl, rfl, rfl⟩, fun w m => ?_, fun w t => ?_, fun w c => ?_, fun w sb => ?_⟩ <;>
    simp only [mate_ui_window_set_menubar, mate_ui_window_set_toolbar,
      mate_ui_window_set_content, mate_ui_window_set_statusbar,
      mate_ui_window_get_menubar, mate_ui_window_get_toolbar,
      mate_ui_window_get_content, mate_ui_window_get_statusbar] <;>
    split <;> simp_all

/-- C5: after binding settings with non-NULL width and height keys, every
configure event on an unmaximized window writes the event width under the width
key and then the event height under the height key into the bound settings
store; a configure event in the maximized state changes nothing, and a configure
event on a window with no active settings binding changes nothing. -/
theorem window_configure_event_writes_geometry
    (w : MateUiWindowPrivate) (s : GSettingsStore) (wk hk : Str) (mk : Option Str)
    (gdk_maximized : Option Bool) (ew eh : Int) :
    (gdk_maximized ≠ some true →
      (mate_ui_window_configure_event
          (mate_ui_window_bind_settings w s (some wk) (some hk) mk)
          gdk_maximized ew eh).settings =
        some (g_settings_set_int (g_settings_set_int s wk ew) hk eh)) ∧
    (mate_ui_window_configure_event
        (mate_ui_window_bind_settings w s (some wk) (some hk) mk)
        (some true) ew eh =
      mate_ui_window_bind_settings w s (some wk) (some hk) mk) ∧
    (∀ w0 : MateUiWindowPrivate, w0.settings = none →
      mate_ui_window_configure_event w0 gdk_maximized ew eh = w0) := by
  refine ⟨fun h => ?_, rfl, fun w0 h0 => ?_⟩
  · unfold mate_ui_window_configure_event mate_ui_window_bind_settings
    simp [if_neg h]
  · unfold mate_ui_window_configure_event
    rw [h0]

theorem window_configure_event_writes_geometry_witness :
    ((none : Option Bool) ≠ some true ∧
      (mate_ui_window_configure_event
          (mate_ui_window_bind_settings mate_ui_window_init (fun _ => 0) (some ['w'])
            (some ['h']) none)
          none 800 600).settings =
        some (g_settings_set_int (g_settings_set_int (fun _ => 0) ['w'] 800) ['h'] 600)) ∧
    (mate_ui_window_init.settings = none ∧
      mate_ui_window_configure_event mate_ui_window_init none 800 600 =
        mate_ui_window_init) :=
  ⟨⟨by decide,
    (window_configure_event_writes_geometry mate_ui_window_init (fun _ => 0) ['w'] ['h']
        none none 800 600).1 (by decide)⟩,
   ⟨rfl,
    (window_configure_event_writes_geometry mate_ui_window_init (fun _ => 0) ['w'] ['h']
        none none 800 600).2.2 mate_ui_window_init rfl⟩⟩

/-- C10: mate_ui_window_set_default_size_from_settings uses the stored width and
height, independently replacing each dimension by its default when the stored
value is not positive. -/
theorem window_default_size_from_settings
    (s : GSettingsStore) (wk hk : Str) (dw dh : Int) :
    (0 < g_settings_get_int s wk →
      (mate_ui_window_set_default_size_from_settings s wk hk dw dh).1 =
        g_settings_get_int s wk) ∧
    (g_settings_get_int s wk ≤ 0 →
      (mate_ui_window_set_default_size_from_settings s wk hk dw dh).1 = dw) ∧
    (0 < g_settings_get_int s hk →
      (mate_ui_window_set_default_size_from_settings s wk hk dw dh).2 =
        g_settings_get_int s hk) ∧
    (g_settings_get_int s hk ≤ 0 →
      (mate_ui_window_set_default_size_from_settings s wk hk dw dh).2 = dh) := by
  unfold mate_ui_window_set_default_size_from_settings
  refine ⟨fun h => ?_, fun h => ?_, fun h => ?_, fun h => ?_⟩ <;>
    simp only [] <;> split_ifs <;> first | rfl | omega

theorem window_default_size_from_settings_witness :
    (0 < g_settings_get_int (fun k => if k = ['w'] then 640 else 0) ['w'] ∧
      (mate_ui_window_set_default_size_from_settings
          (fun k => if k = ['w'] then 640 else 0) ['w'] ['h'] 800 600).1 =
        g_settings_get_int (fun k => if k = ['w'] then 640 else 0) ['w']) ∧
    (g_settings_get_int (fun k => if k = ['w'] then 640 else 0) ['h'] ≤ 0 ∧
      (mate_ui_window_set_default_size_from_settings
          (fun k => if k = ['w'] then 640 else 0) ['w'] ['h'] 800 600).2 = 600) :=
  ⟨⟨by decide,
    (window_default_size_from_settings (fun k => if k = ['w'] then 640 else 0)
        ['w'] ['h'] 800 600).1 (by decide)⟩,
   ⟨by decide,
    (window_default_size_from_settings (fun k => if k = ['w'] then 640 else 0)
        ['w'] ['h'] 800 600).2.2.2 (by decide)⟩⟩

/-! ## Claims about the menu module -/

/-- C9: mate_ui_menu_model_new_from_entries labels items and submenus with the
entry label stripped of every '_' character — so the '__' escape for a literal
underscore is deleted entirely instead of yielding a single '_'. -/
theorem menu_model_strips_underscores :
    (∀ l : Str, stripMnemonicUnderscores l = l.filter (fun c => c != '_')) ∧
    (∀ submenus : List MateUiSubmenu,
      (mate_ui_menu_model_new_from_entries submenus).map Prod.fst =
        submenus.map (fun sm => stripMnemonicUnderscores sm.label)) ∧
    (∀ (e : MateUiMenuEntry) (l : Str), e.label = some l →
      buildMenuItem e =
        .item (stripMnemonicUnderscores l) e.action_name e.icon_name e.accel) ∧
    (stripMnemonicUnderscores ['_', '_'] = [] ∧
      stripMnemonicUnderscores ['_', '_'] ≠ ['_']) := by
  refine ⟨fun l => ?_, fun submenus => ?_, fun e l h => ?_, by decide, by decide⟩
  · induction l with
    | nil => rfl
    | cons c cs ih =>
      by_cases hc : c = '_' <;> simp_all [stripMnemonicUnderscores, List.filter_cons]
  · simp [mate_ui_menu_model_new_from_entries]
  · have hne : ¬(e.label = none ∧ e.action_name = none) := by simp [h]
    simp [buildMenuItem, hne, h]

theorem menu_model_strips_underscores_witness :
    (({ label := some ['F', '_', 'i', 'l', 'e'], action_name := some ['a'],
        icon_name := none, accel := none } : MateUiMenuEntry).label =
      some ['F', '_', 'i', 'l', 'e']) ∧
    buildMenuItem
        { label := some ['F', '_', 'i', 'l', 'e'], action_name := some ['a'],
          icon_name := none, accel := none } =
      .item (stripMnemonicUnderscores ['F', '_', 'i', 'l', 'e']) (some ['a']) none none :=
  ⟨rfl,
   menu_model_strips_underscores.2.2.1
     { label := some ['F', '_', 'i', 'l', 'e'], action_name := some ['a'],
       icon_name := none, accel := none } ['F', '_', 'i', 'l', 'e'] rfl⟩

/-! ## Claims about the session module -/

/-- C7: mate_ui_session_inhibit returns NULL exactly when the toolkit path fails
(no application or a zero cookie) and the D-Bus path fails (no proxy or no
Inhibit result); a handle acquired through the toolkit is released by
gtk_application_uninhibit with the stored toolkit cookie, a handle acquired over
D-Bus by the session-manager Uninhibit call with the stored D-Bus cookie, and
uninhibiting NULL is a no-op. -/
theorem session_inhibit_uninhibit_spec (w : SessionWorld) (app : Option Nat) (flags : Nat) :
    (mate_ui_session_inhibit w app flags = none ↔
      ((app = none ∨ w.gtk_inhibit_cookie = 0) ∧
       (w.proxy_available = false ∨ w.dbus_inhibit_result = none))) ∧
    (∀ a, app = some a → w.gtk_inhibit_cookie ≠ 0 →
      mate_ui_session_uninhibit w (mate_ui_session_inhibit w app flags) =
        .gtk_uninhibit a w.gtk_inhibit_cookie) ∧
    (∀ c, (app = none ∨ w.gtk_inhibit_cookie = 0) → w.proxy_available = true →
      w.dbus_inhibit_result = some c →
      mate_ui_session_uninhibit w (mate_ui_session_inhibit w app flags) =
        .dbus_uninhibit c) ∧
    (mate_ui_session_uninhibit w none = .noop) := by
  obtain ⟨g, p, d⟩ := w
  refine ⟨?_, fun a ha hg => ?_, fun c hfail hp hd => ?_, rfl⟩
  · cases app <;> cases p <;> cases d <;>
      simp [mate_ui_session_inhibit, sessionDbusInhibit] <;>
      by_cases hg : g = 0 <;> simp [hg]
  · subst ha
    simp only [mate_ui_session_inhibit, if_neg, hg, if_true]
    simp [mate_ui_session_uninhibit, hg]
  · subst hp hd
    rcases hfail with hfail | hfail
    · subst hfail
      simp [mate_ui_session_inhibit, sessionDbusInhibit, mate_ui_session_uninhibit]
    · subst hfail
      cases app <;>
        simp [mate_ui_session_inhibit, sessionDbusInhibit, mate_ui_session_uninhibit]

theorem session_inhibit_uninhibit_spec_witness :
    ((some 3 : Option Nat) = some 3 ∧
      ({ gtk_inhibit_cookie := 5, proxy_available := true,
         dbus_inhibit_result := some 7 } : SessionWorld).gtk_inhibit_cookie ≠ 0 ∧
      mate_ui_session_uninhibit
          { gtk_inhibit_cookie := 5, proxy_available := true, dbus_inhibit_result := some 7 }
          (mate_ui_session_inhibit
            { gtk_inhibit_cookie := 5, proxy_available := true, dbus_inhibit_result := some 7 }
            (some 3) 0) =
        .gtk_uninhibit 3 5) ∧
    (mate_ui_session_uninhibit
        { gtk_inhibit_cookie := 0, proxy_available := true, dbus_inhibit_result := some 7 }
        (mate_ui_session_inhibit
          { gtk_inhibit_cookie := 0, proxy_available := true, dbus_inhibit_result := some 7 }
          (some 3) 0) =
      .dbus_uninhibit 7) :=
  ⟨⟨rfl, by decide,
    (session_inhibit_uninhibit_spec
        { gtk_inhibit_cookie := 5, proxy_available := true, dbus_inhibit_result := some 7 }
        (some 3) 0).2.1 3 rfl (by decide)⟩,
   (session_inhibit_uninhibit_spec
       { gtk_inhibit_cookie := 0, proxy_available := true, dbus_inhibit_result := some 7 }
       (some 3) 0).2.2.1 7 (Or.inr rfl) rfl rfl⟩

/-! ## The save/load round trip -/

theorem g_strchug_eq_self {s : Str} (h : noLeadWS s = true) : g_strchug s = s := by
  cases s with
  | nil => rfl
  | cons c t =>
    have hc : isAsciiSpace c = false := by
      simpa [noLeadWS] using h
    simp [g_strchug, List.dropWhile_cons, hc]

theorem g_strchomp_eq_self {s : Str} (h : noTrailWS s = true) : g_strchomp s = s := by
  unfold g_strchomp
  cases hr : s.reverse with
  | nil =>
    have : s = [] := by simpa using congrArg List.reverse hr
    simp [this]
  | cons c t =>
    have hl : s.getLast? = some c := by
      rw [← List.head?_reverse, hr, List.head?_cons]
    have hc : isAsciiSpace c = false := by
      simpa [noTrailWS, hl] using h
    rw [List.dropWhile_cons]
    simp only [hc, Bool.false_eq_true, if_false]
    rw [← List.reverse_reverse s, hr]

theorem g_strstrip_eq_self {s : Str} (h1 : noLeadWS s = true) (h2 : noTrailWS s = true) :
    g_strstrip s = s := by
  unfold g_strstrip
  rw [g_strchug_eq_self h1, g_strchomp_eq_self h2]

theorem splitFirstAt_append {sep : Char} (k v : Str) (h : sep ∉ k) :
    splitFirstAt sep (k ++ sep :: v) = some (k, v) := by
  induction k with
  | nil => simp [splitFirstAt]
  | cons c t ih =>
    simp only [List.mem_cons, not_or] at h
    simp [splitFirstAt, Ne.symm h.1, ih h.2]

theorem splitOnChar_ne_nil (sep : Char) (l : Str) : splitOnChar sep l ≠ [] := by
  induction l with
  | nil => simp [splitOnChar]
  | cons c t ih =>
    simp only [splitOnChar]
    split_ifs
    · simp
    · cases h : splitOnChar sep t <;> simp

theorem splitOnChar_append (sep : Char) (xs ys : Str) (h : sep ∉ xs) :
    splitOnChar sep (xs ++ sep :: ys) = xs :: splitOnChar sep ys := by
  induction xs with
  | nil => simp [splitOnChar]
  | cons c t ih =>
    simp only [List.mem_cons, not_or] at h
    rw [List.cons_append]
    show splitOnChar sep (c :: (t ++ sep :: ys)) = _
    rw [splitOnChar, if_neg (Ne.symm h.1), ih h.2]

theorem parseAccelLine_entry {k v : Str} (hk1 : k ≠ []) (hv1 : v ≠ [])
    (hkl : noLeadWS k = true) (hkt : noTrailWS k = true)
    (hvl : noLeadWS v = true) (hvt : noTrailWS v = true)
    (hke : '=' ∉ k) (hkh : k.head? ≠ some '#') :
    parseAccelLine (k ++ '=' :: v) = some (k, v) := by
  have hstrip : g_strstrip (k ++ '=' :: v) = k ++ '=' :: v := by
    apply g_strstrip_eq_self
    · cases k with
      | nil => exact (hk1 rfl).elim
      | cons c t => simpa [noLeadWS] using hkl
    · unfold noTrailWS at hvt ⊢
      rw [List.getLast?_append_of_ne_nil _ (List.cons_ne_nil '=' v)]
      rw [show ('=' :: v : Str) = ['='] ++ v from rfl,
        List.getLast?_append_of_ne_nil _ hv1]
      exact hvt
  cases k with
  | nil => exact (hk1 rfl).elim
  | cons c t =>
    have hc : c ≠ '#' := by
      intro hh
      exact hkh (by simp [hh])
    unfold parseAccelLine
    rw [hstrip]
    show (match (c :: (t ++ '=' :: v) : Str) with
      | [] => none
      | c :: rest =>
        if c = '#' then none
        else
          match splitFirstAt '=' (c :: rest) with
          | none => none
          | some (p0, p1) =>
            if g_strstrip p0 ≠ [] ∧ g_strstrip p1 ≠ [] then
              some (g_strstrip p0, g_strstrip p1)
            else none) = some (c :: t, v)
    simp only [if_neg hc]
    rw [show (c :: (t ++ '=' :: v) : Str) = (c :: t) ++ '=' :: v from rfl,
      splitFirstAt_append (c :: t) v hke]
    show (if g_strstrip (c :: t) ≠ [] ∧ g_strstrip v ≠ [] then
        some (g_strstrip (c :: t), g_strstrip v) else none) = some (c :: t, v)
    rw [g_strstrip_eq_self hkl hkt, g_strstrip_eq_self hvl hvt]
    simp [hv1]

theorem accel_add_append {m : AccelMap} {a : Str} (s : Str) (h : a ∉ accelKeys m) :
    mate_ui_accel_map_add m a s = m ++ [(a, s)] := by
  induction m with
  | nil => rfl
  | cons e rest ih =>
    obtain ⟨k, v⟩ := e
    simp only [accelKeys, List.map_cons, List.mem_cons, not_or] at h
    simp only [mate_ui_accel_map_add, if_neg (Ne.symm h.1), List.cons_append,
      List.cons.injEq, true_and]
    exact ih h.2

theorem saveHeader_decomp :
    saveHeader = headerLine1 ++ '\n' :: (headerLine2 ++ '\n' :: '\n' :: []) := by decide

theorem splitOnChar_flatten_sep (sep : Char) (L : List Str) (h : ∀ x ∈ L, sep ∉ x) :
    splitOnChar sep ((L.map (fun x => x ++ [sep])).flatten) = L ++ [[]] := by
  induction L with
  | nil => rfl
  | cons x rest ih =>
    simp only [List.map_cons, List.flatten_cons, List.append_assoc, List.singleton_append]
    rw [splitOnChar_append sep x _ (h x (by simp)), ih (fun y hy => h y (by simp [hy]))]
    simp

theorem splitOnChar_save_flat (m : AccelMap)
    (hnl : ∀ p ∈ m, '\n' ∉ p.1 ∧ '\n' ∉ p.2) :
    splitOnChar '\n' ((m.map (fun e => e.1 ++ '=' :: e.2 ++ ['\n'])).flatten) =
      (m.map fun e => e.1 ++ '=' :: e.2) ++ [[]] := by
  have hmap : m.map (fun e => e.1 ++ '=' :: e.2 ++ ['\n']) =
      (m.map (fun e => e.1 ++ '=' :: e.2)).map (fun x => x ++ ['\n']) := by
    induction m with
    | nil => rfl
    | cons e rest ih => simp [ih]
  rw [hmap, splitOnChar_flatten_sep '\n' _ ?side]
  case side =>
    intro x hx
    obtain ⟨e, he, rfl⟩ := List.mem_map.1 hx
    have h := hnl e he
    simp only [List.mem_append, List.mem_cons, not_or]
    exact ⟨h.1, by decide, h.2⟩

theorem lines_of_save (m : AccelMap)
    (hnl : ∀ p ∈ m, '\n' ∉ p.1 ∧ '\n' ∉ p.2) :
    splitOnChar '\n' (mate_ui_accel_map_save m) =
      headerLine1 :: headerLine2 :: [] ::
        ((m.map fun e => e.1 ++ '=' :: e.2) ++ [[]]) := by
  unfold mate_ui_accel_map_save
  have e0 : saveHeader ++ ((m.map (fun e => e.1 ++ '=' :: e.2 ++ ['\n'])).flatten) =
      headerLine1 ++ '\n' :: (headerLine2 ++ '\n' ::
        ('\n' :: ((m.map (fun e => e.1 ++ '=' :: e.2 ++ ['\n'])).flatten))) := by
    rw [saveHeader_decomp]
    simp
  rw [e0]
  rw [splitOnChar_append _ _ _ (by decide : '\n' ∉ headerLine1)]
  rw [splitOnChar_append _ _ _ (by decide : '\n' ∉ headerLine2)]
  rw [show splitOnChar '\n'
        ('\n' :: ((m.map (fun e => e.1 ++ '=' :: e.2 ++ ['\n'])).flatten)) =
      [] :: splitOnChar '\n' ((m.map (fun e => e.1 ++ '=' :: e.2 ++ ['\n'])).flatten)
    from by rw [splitOnChar, if_pos rfl]]
  rw [splitOnChar_save_flat m hnl]

theorem accel_fold_entry_lines (m : AccelMap) (acc : AccelMap)
    (hok : ∀ p ∈ m, saveableEntry p) (hnd : (accelKeys m).Nodup)
    (hdisj : ∀ a ∈ accelKeys m, a ∉ accelKeys acc) :
    (m.map fun e => e.1 ++ '=' :: e.2).foldl
      (fun acc2 line =>
        match parseAccelLine line with
        | some p => mate_ui_accel_map_add acc2 p.1 p.2
        | none => acc2) acc = acc ++ m := by
  induction m generalizing acc with
  | nil => simp
  | cons e rest ih =>
    obtain ⟨k, v⟩ := e
    obtain ⟨h1, h2, h3, h4, h5, h6, h7, h8, h9, h10⟩ := hok (k, v) (by simp)
    have hnd2 : k ∉ rest.map Prod.fst ∧ (rest.map Prod.fst).Nodup :=
      List.nodup_cons.1 (show (k :: rest.map Prod.fst).Nodup from hnd)
    simp only [List.map_cons, List.foldl_cons,
      parseAccelLine_entry h1 h2 h5 h6 h7 h8 h9 h10]
    rw [accel_add_append v (hdisj k (by simp [accelKeys]))]
    rw [ih (acc ++ [(k, v)]) (fun p hp => hok p (by simp [hp])) hnd2.2 ?disj]
    · simp
    case disj =>
      intro a ha
      have h2a : a ≠ k := fun hh => hnd2.1 (hh ▸ ha)
      have h1a : a ∉ accelKeys acc := hdisj a (by
        show a ∈ List.map Prod.fst ((k, v) :: rest)
        exact List.mem_cons_of_mem _ ha)
      show a ∉ accelKeys (acc ++ [(k, v)])
      have hkeys : accelKeys (acc ++ [(k, v)]) = accelKeys acc ++ [k] := by
        simp [accelKeys]
      rw [hkeys]
      simp only [List.mem_append, List.mem_singleton, not_or]
      exact ⟨h1a, h2a⟩

/-- C2: the save/load round trip. For every well-formed accelerator map whose
action names and accelerator strings are nonempty, contain no newline and no
leading or trailing whitespace, and whose action names contain no '=' and do
not begin with '#', saving and loading the written contents into a fresh map
succeeds and reproduces exactly the original entries. -/
theorem accel_map_save_load_roundtrip (m : AccelMap)
    (hwf : accelMapWf m) (hok : ∀ p ∈ m, saveableEntry p) :
    mate_ui_accel_map_load mate_ui_accel_map_new (some (mate_ui_accel_map_save m)) =
      (true, m) := by
  show (true, mate_ui_accel_map_load_contents [] (mate_ui_accel_map_save m)) = (true, m)
  unfold mate_ui_accel_map_load_contents gStrsplitAll
  have hne : mate_ui_accel_map_save m ≠ [] := by
    unfold mate_ui_accel_map_save
    intro hh
    rw [List.append_eq_nil] at hh
    exact absurd hh.1 (by decide)
  rw [if_neg hne]
  have hnl : ∀ p ∈ m, '\n' ∉ p.1 ∧ '\n' ∉ p.2 :=
    fun p hp => ⟨(hok p hp).2.2.1, (hok p hp).2.2.2.1⟩
  rw [lines_of_save m hnl]
  have e1 : parseAccelLine headerLine1 = none := by decide
  have e2 : parseAccelLine headerLine2 = none := by decide
  have e3 : parseAccelLine [] = none := rfl
  simp only [List.foldl_cons, e1, e2, e3]
  rw [List.foldl_append]
  rw [accel_fold_entry_lines m [] hok hwf (fun a _ => by simp [accelKeys])]
  simp [e3]

theorem accel_map_save_load_roundtrip_witness :
    accelMapWf ([(['a'], ['x']), (['b', 'c'], ['<', 'C', 't', 'r', 'l', '>', 'q'])] :
        AccelMap) ∧
    (∀ p ∈ ([(['a'], ['x']), (['b', 'c'], ['<', 'C', 't', 'r', 'l', '>', 'q'])] :
        AccelMap), saveableEntry p) ∧
    mate_ui_accel_map_load mate_ui_accel_map_new
        (some (mate_ui_accel_map_save
          [(['a'], ['x']), (['b', 'c'], ['<', 'C', 't', 'r', 'l', '>', 'q'])])) =
      (true, [(['a'], ['x']), (['b', 'c'], ['<', 'C', 't', 'r', 'l', '>', 'q'])]) :=
  ⟨by decide, by decide,
   accel_map_save_load_roundtrip
     [(['a'], ['x']), (['b', 'c'], ['<', 'C', 't', 'r', 'l', '>', 'q'])]
     (by decide) (by decide)⟩
